import Mathlib

/-!
# Verification of the document-processor result pipeline

Shallow embedding of the result-classification and presentation pipeline of
the `document-processor` repository (Python/Streamlit frontend):

* `src/frontend/app.py` — `main`: the four-way branch on the stored result
  (error / processing / other-with-zero-confidence / success);
* `src/frontend/components/results_display.py` — `display_error` (the
  substring-driven troubleshooting table), `display_results` (entity
  grouping, severity colouring, table materialization, CSV projection);
* `src/frontend/services/api_client.py` — `ApiClient` (transport client).

Python dict payloads are embedded as structures with `Option` fields: a
`none` field models a key that is absent from the JSON object, and
`Option.getD` models Python's `dict.get(key, default)`. Machine floats
occurring in the code only ever enter equality/order comparisons against the
decimal literals `0.0`, `0.5` and `0.8`, and all values seen at those
comparisons are decimal literals as well, so they are embedded as `ℚ`.
-/

namespace DocProcessor

/-! ## Substring matching

Python's `needle in haystack` operator on strings, as used by
`display_error` in `results_display.py`: a contiguous, case-sensitive
substring test. Embedded on `List Char` and wrapped for `String`. -/

/-- `leadsWith n h` models "`h` starts with `n`" (Python `h.startswith(n)`),
the building block for the substring test. -/
def leadsWith : List Char → List Char → Bool
  | [], _ => true
  | _ :: _, [] => false
  | a :: n, b :: h => a == b && leadsWith n h

/-- `subSeqOf n h` models Python's `n in h` on strings: `n` occurs as a
contiguous subsequence of `h`. -/
def subSeqOf (n : List Char) : List Char → Bool
  | [] => leadsWith n []
  | c :: h => leadsWith n (c :: h) || subSeqOf n h

/-- Python `needle in hay` for `String`s. -/
def strContains (hay needle : String) : Bool := subSeqOf needle.data hay.data

theorem leadsWith_iff (n : List Char) : ∀ h : List Char,
    leadsWith n h = true ↔ ∃ q, h = n ++ q := by
  induction n with
  | nil =>
    intro h
    simp [leadsWith]
  | cons a n ih =>
    intro h
    cases h with
    | nil =>
      simp [leadsWith]
    | cons b t =>
      simp only [leadsWith, Bool.and_eq_true, beq_iff_eq, ih]
      constructor
      · rintro ⟨rfl, q, rfl⟩
        exact ⟨q, rfl⟩
      · rintro ⟨q, hq⟩
        rcases List.cons.injEq .. ▸ hq with ⟨rfl, rfl⟩
        exact ⟨rfl, q, rfl⟩

/-- Correctness of the embedded substring test: `subSeqOf n h` holds exactly
when `h` decomposes as `p ++ n ++ q`. -/
theorem subSeqOf_iff (n : List Char) : ∀ h : List Char,
    subSeqOf n h = true ↔ ∃ p q, h = p ++ n ++ q := by
  intro h
  induction h with
  | nil =>
    simp only [subSeqOf, leadsWith_iff]
    constructor
    · rintro ⟨q, hq⟩
      exact ⟨[], q, by simpa using hq⟩
    · rintro ⟨p, q, hpq⟩
      rcases List.append_eq_nil.mp (List.append_eq_nil.mp hpq.symm).1 with ⟨-, h2⟩
      exact ⟨[], by simp [h2]⟩
  | cons c t ih =>
    simp only [subSeqOf, Bool.or_eq_true, leadsWith_iff, ih]
    constructor
    · rintro (⟨q, hq⟩ | ⟨p, q, hpq⟩)
      · exact ⟨[], q, by simpa using hq⟩
      · exact ⟨c :: p, q, by simp [hpq]⟩
    · rintro ⟨p, q, hpq⟩
      cases p with
      | nil => exact Or.inl ⟨q, by simpa using hpq⟩
      | cons x p =>
        rcases List.cons.injEq .. ▸ hpq with ⟨-, rfl⟩
        exact Or.inr ⟨p, q, rfl⟩

/-- `subSeqOf` holds when the needle is a suffix of the haystack; used for
the transport-error message shape (`"Upload failed: " ++ cause`). -/
theorem subSeqOf_append_self (p n : List Char) : subSeqOf n (p ++ n) = true :=
  (subSeqOf_iff n (p ++ n)).mpr ⟨p, [], by simp⟩

/-! ## Data model

`Response` embeds the JSON object that `app.py` stores in
`st.session_state['last_result']`: either a backend `ProcessedDocument`
payload or the error object produced by `ApiClient.upload_file`. Only the
fields the classification pipeline reads are embedded. `error : Bool` is
the truthiness of `result.get('error')` (absent key → falsy → `false`). -/

/-- An extracted entity: `{type, value, confidence}` (`results_display.py`).
`type := none` models an entity dict without a `'type'` key
(`entity.get('type', 'unknown')`). -/
structure Entity where
  type : Option String
  value : String
  confidence : ℚ
deriving DecidableEq, Repr

/-- An extracted table: `{table_name, headers, rows}` (`results_display.py`).
`table_name := none` models a table dict without a `'table_name'` key. -/
structure Table where
  table_name : Option String
  headers : List String
  rows : List (List String)
deriving DecidableEq, Repr

/-- The stored result object read by `main` in `app.py`. -/
structure Response where
  error : Bool
  message : Option String
  category : Option String
  confidenceScore : Option ℚ
  fileId : Option String
  entities : List Entity
  dates : List String
  tables : List Table
deriving DecidableEq, Repr

/-- The recognized failure modes of `display_error`'s troubleshooting
table (`results_display.py`, lines 100–134); `generic` is its final
`else` branch. -/
inductive FailureKind where
  | apiConfiguration
  | aiProcessing
  | timeout
  | serviceBusy
  | generic
deriving DecidableEq, Repr

/-- The classification of a stored result, following the four-way branch of
`main` in `app.py` (lines 123–134). -/
inductive Classification where
  | success
  | pending
  | knownFailure (kind : FailureKind)
deriving DecidableEq, Repr

/-! ## Response classifier -/

/-- The `if/elif` chain of `display_error` (`results_display.py`): a
substring-pattern table over the error message, first match wins. -/
def classifyMessage (m : String) : FailureKind :=
  if strContains m "API configuration" then .apiConfiguration
  else if strContains m "categorize" || strContains m "extract" then .aiProcessing
  else if strContains m "timeout" then .timeout
  else if strContains m "busy" || strContains m "wait" then .serviceBusy
  else .generic

/-- The four-way branch of `main` in `app.py` (lines 123–134):
1. `result.get('error')` truthy → `display_error(result.get('message',
   'Unknown error occurred'))`;
2. elif `result.get('category') == 'processing'` → pending info box;
3. elif `result.get('category') == 'other' and
   result.get('confidenceScore', 0) == 0.0` → `display_error("Unable to
   categorize this document. The AI service may be having issues.")`;
4. else → `display_results(result)`.
Branches 1 and 3 go through `classifyMessage` exactly as the code routes
their message through `display_error`'s pattern table. -/
def classify (r : Response) : Classification :=
  if r.error then
    .knownFailure (classifyMessage (r.message.getD "Unknown error occurred"))
  else if r.category = some "processing" then .pending
  else if r.category = some "other" ∧ r.confidenceScore.getD 0 = 0 then
    .knownFailure (classifyMessage
      "Unable to categorize this document. The AI service may be having issues.")
  else .success

/-! ## Claims about the classifier -/

/-- C1 (amended): for every response with no truthy error marker whose
`category` equals `"processing"`, `classify` returns `Pending`, regardless
of all other fields. (The original claim — `Pending` regardless of the
error marker as well — fails: `main` checks `result.get('error')` first.) -/
theorem classify_processing_pending (r : Response) (he : r.error = false)
    (hc : r.category = some "processing") : classify r = .pending := by
  simp [classify, he, hc]

/-- Witness for `classify_processing_pending` at a concrete response. -/
theorem classify_processing_pending_witness :
    classify ⟨false, none, some "processing", some (97/100), some "f1", [], [], []⟩ =
      .pending :=
  classify_processing_pending _ rfl rfl

/-- C1 counterexample: a response with `error == true` and
`category == "processing"` is routed to `display_error` (the error branch
comes first in `main`), not to the pending branch, so the original claim
"`Pending` regardless of the error marker" is false. -/
theorem classify_processing_error_counterexample :
    classify ⟨true, none, some "processing", none, none, [], [], []⟩ =
      .knownFailure .generic ∧
    classify ⟨true, none, some "processing", none, none, [], [], []⟩ ≠ .pending := by
  constructor
  · decide
  · decide

/-- C2 (amended): for every response with `error == true` whose message
contains the substring `"timeout"` and contains none of the
earlier-checked patterns `"API configuration"`, `"categorize"`,
`"extract"`, `classify` returns `KnownFailure{Timeout}`. (The original
claim omitted the first-match-wins proviso and fails on messages that also
contain an earlier pattern.) -/
theorem classify_timeout_message (r : Response) (m : String)
    (he : r.error = true) (hm : r.message = some m)
    (ht : strContains m "timeout" = true)
    (h1 : strContains m "API configuration" = false)
    (h2 : strContains m "categorize" = false)
    (h3 : strContains m "extract" = false) :
    classify r = .knownFailure .timeout := by
  simp [classify, classifyMessage, he, hm, ht, h1, h2, h3]

/-- Witness for `classify_timeout_message` at a concrete response. -/
theorem classify_timeout_message_witness :
    classify ⟨true, some "Upload failed: request timeout", none, none, none, [], [], []⟩ =
      .knownFailure .timeout :=
  classify_timeout_message _ "Upload failed: request timeout" rfl rfl
    (by decide) (by decide) (by decide) (by decide)

/-- C2 counterexample: the message `"Failed to extract: timeout"` contains
`"timeout"`, yet the classifier returns `KnownFailure{AiProcessing}`
because the `"extract"` pattern is checked first. -/
theorem classify_timeout_message_counterexample :
    strContains "Failed to extract: timeout" "timeout" = true ∧
    classify ⟨true, some "Failed to extract: timeout", none, none, none, [], [], []⟩ =
      .knownFailure .aiProcessing ∧
    classify ⟨true, some "Failed to extract: timeout", none, none, none, [], [], []⟩ ≠
      .knownFailure .timeout := by
  refine ⟨by decide, by decide, by decide⟩

/-- C3: for every response with no truthy error marker, `category ==
"other"` and `confidenceScore == 0.0`, `classify` returns
`KnownFailure{AiProcessing}` (the fixed message `main` passes to
`display_error` contains `"categorize"`), not `Success`. -/
theorem classify_other_zero_confidence (r : Response) (he : r.error = false)
    (hc : r.category = some "other") (hs : r.confidenceScore = some 0) :
    classify r = .knownFailure .aiProcessing ∧ classify r ≠ .success := by
  have h : classify r = .knownFailure .aiProcessing := by
    simp only [classify, he, if_false, Bool.false_eq_true, hc, hs]
    norm_num
    decide
  exact ⟨h, by simp [h]⟩

/-- Witness for `classify_other_zero_confidence` at a concrete response. -/
theorem classify_other_zero_confidence_witness :
    classify ⟨false, none, some "other", some 0, some "f2", [], [], []⟩ =
      .knownFailure .aiProcessing ∧
    classify ⟨false, none, some "other", some 0, some "f2", [], [], []⟩ ≠ .success :=
  classify_other_zero_confidence _ rfl rfl rfl

/-- C10: a response with no truthy error marker, `category == "other"` and
no `confidenceScore` key at all is treated as if the confidence were `0.0`
(`result.get('confidenceScore', 0)`), so `classify` returns
`KnownFailure{AiProcessing}`, not `Success`. -/
theorem classify_other_missing_confidence (r : Response) (he : r.error = false)
    (hc : r.category = some "other") (hs : r.confidenceScore = none) :
    classify r = .knownFailure .aiProcessing ∧ classify r ≠ .success := by
  have h : classify r = .knownFailure .aiProcessing := by
    simp only [classify, he, if_false, Bool.false_eq_true, hc, hs]
    norm_num
    decide
  exact ⟨h, by simp [h]⟩

/-- Witness for `classify_other_missing_confidence` at a concrete response. -/
theorem classify_other_missing_confidence_witness :
    classify ⟨false, none, some "other", none, none, [], [], []⟩ =
      .knownFailure .aiProcessing ∧
    classify ⟨false, none, some "other", none, none, [], [], []⟩ ≠ .success :=
  classify_other_missing_confidence _ rfl rfl rfl

/-! ## Extraction normalizer: severity tiers -/

/-- The confidence marker of `display_results` (`results_display.py`,
line 44): `"🟢" if confidence > 0.8 else "🟡" if confidence > 0.5 else
"🔴"`. -/
def confidenceColor (c : ℚ) : String :=
  if c > 0.8 then "🟢" else if c > 0.5 then "🟡" else "🔴"

/-- The presentational severity tiers of the spec: green marker = high,
yellow = medium, red = low. -/
inductive Severity where
  | high
  | medium
  | low
deriving DecidableEq, Repr

/-- The severity tier an entity is displayed with, read off from the
colour marker the code computes. -/
def severityOf (c : ℚ) : Severity :=
  if confidenceColor c = "🟢" then .high
  else if confidenceColor c = "🟡" then .medium
  else .low

/-! ## Extraction normalizer: entity grouping -/

/-- The grouping key of an entity: `entity.get('type', 'unknown')`
(`results_display.py`, line 34). -/
def entityType (e : Entity) : String := e.type.getD "unknown"

/-- One iteration of the grouping loop of `display_results`
(`results_display.py`, lines 32–37): insert `e` into the ordered
association list of groups, creating a new group at the end when its type
is new (Python dicts preserve insertion order). -/
def insertEntity (groups : List (String × List Entity)) (e : Entity) :
    List (String × List Entity) :=
  if groups.any (fun g => g.1 == entityType e) then
    groups.map (fun g => if g.1 == entityType e then (g.1, g.2 ++ [e]) else g)
  else groups ++ [(entityType e, [e])]

/-- The whole grouping loop: `entity_groups` as an ordered association
list from entity type to the entities of that type. -/
def groupEntities (es : List Entity) : List (String × List Entity) :=
  es.foldl insertEntity []

/-- Spec-side description of "types appear in first-occurrence order":
deduplicate a list keeping the first occurrence of each element. -/
def firstSeen : List String → List String
  | [] => []
  | t :: ts => t :: (firstSeen ts).filter (fun u => u != t)

theorem mem_firstSeen (a : String) : ∀ l : List String, a ∈ firstSeen l ↔ a ∈ l := by
  intro l
  induction l with
  | nil => simp [firstSeen]
  | cons x l ih =>
    simp only [firstSeen, List.mem_cons, List.mem_filter, bne_iff_ne, ne_eq,
      decide_eq_true_eq, ih]
    by_cases hx : a = x
    · simp [hx]
    · simp [hx]

theorem firstSeen_cons (x : String) (l : List String) :
    firstSeen (x :: l) = x :: (firstSeen l).filter (fun u => u != x) := rfl

theorem firstSeen_append_one (t : String) : ∀ l : List String,
    firstSeen (l ++ [t]) = if t ∈ l then firstSeen l else firstSeen l ++ [t] := by
  intro l
  induction l with
  | nil => simp [firstSeen]
  | cons x l ih =>
    rw [show ((x :: l) ++ [t] : List String) = x :: (l ++ [t]) from rfl,
      firstSeen_cons, firstSeen_cons, ih]
    by_cases ht : t ∈ l
    · rw [if_pos ht, if_pos (List.mem_cons.mpr (Or.inr ht))]
    · rw [if_neg ht, List.filter_append]
      by_cases hx : t = x
      · rcases hx with rfl
        rw [if_pos (List.mem_cons.mpr (Or.inl rfl))]
        simp
      · rw [if_neg (fun hmem => by
          rcases List.mem_cons.mp hmem with h | h
          · exact hx h
          · exact ht h)]
        have hft : List.filter (fun u => u != x) [t] = [t] := by
          simp [bne_iff_ne, hx]
        rw [hft, List.cons_append]

/-- Loop invariant for the grouping fold: after processing `pre`, the
group keys are the first-seen entity types of `pre` and each group holds
exactly the entities of `pre` with its type, in original order. -/
theorem groupEntities_loop (es : List Entity) : ∀ (pre : List Entity)
    (groups : List (String × List Entity)),
    groups.map Prod.fst = firstSeen (pre.map entityType) →
    (∀ p ∈ groups, p.2 = pre.filter (fun e => entityType e == p.1)) →
    (es.foldl insertEntity groups).map Prod.fst =
      firstSeen ((pre ++ es).map entityType) ∧
    ∀ p ∈ es.foldl insertEntity groups,
      p.2 = (pre ++ es).filter (fun e => entityType e == p.1) := by
  induction es with
  | nil =>
    intro pre groups hkeys hvals
    rw [List.foldl_nil, List.append_nil]
    exact ⟨hkeys, hvals⟩
  | cons e es ih =>
    intro pre groups hkeys hvals
    have hmem_any : (groups.any (fun g => g.1 == entityType e)) = true ↔
        entityType e ∈ pre.map entityType := by
      rw [List.any_eq_true]
      constructor
      · rintro ⟨g, hg, hco⟩
        have : entityType e ∈ groups.map Prod.fst :=
          List.mem_map.mpr ⟨g, hg, (beq_iff_eq.mp hco)⟩
        rw [hkeys] at this
        exact (mem_firstSeen _ _).mp this
      · intro hmem
        have : entityType e ∈ groups.map Prod.fst := by
          rw [hkeys]; exact (mem_firstSeen _ _).mpr hmem
        rcases List.mem_map.mp this with ⟨g, hg, hfst⟩
        exact ⟨g, hg, beq_iff_eq.mpr hfst⟩
    have hkeys' : (insertEntity groups e).map Prod.fst =
        firstSeen ((pre ++ [e]).map entityType) := by
      rw [List.map_append,
        show List.map entityType [e] = [entityType e] from rfl,
        firstSeen_append_one]
      unfold insertEntity
      by_cases hany : (groups.any (fun g => g.1 == entityType e)) = true
      · rw [if_pos hany, if_pos (hmem_any.mp hany), List.map_map, ← hkeys]
        congr 1
        funext g
        by_cases hg : (g.1 == entityType e) = true <;> simp [Function.comp, hg]
      · rw [if_neg hany, if_neg (fun hm => hany (hmem_any.mpr hm)),
          List.map_append, hkeys]
        simp
    have hvals' : ∀ p ∈ insertEntity groups e,
        p.2 = (pre ++ [e]).filter (fun e' => entityType e' == p.1) := by
      intro p hp
      rw [List.filter_append]
      unfold insertEntity at hp
      by_cases hany : (groups.any (fun g => g.1 == entityType e)) = true
      · rw [if_pos hany] at hp
        rcases List.mem_map.mp hp with ⟨g, hg, hupd⟩
        by_cases hco : (g.1 == entityType e) = true
        · rw [if_pos hco] at hupd
          have hfst : p.1 = g.1 := by rw [← hupd]
          have hsnd : p.2 = g.2 ++ [e] := by rw [← hupd]
          rw [hsnd, hvals g hg, hfst]
          have hco' : (entityType e == g.1) = true := by
            rw [beq_iff_eq] at hco ⊢
            exact hco.symm
          simp [List.filter_cons, List.filter_nil, hco']
        · rw [if_neg hco] at hupd
          rw [← hupd, hvals g hg]
          have hco' : (entityType e == g.1) = false := by
            rw [beq_eq_false_iff_ne]
            exact fun hn => hco (beq_iff_eq.mpr hn.symm)
          simp [List.filter_cons, List.filter_nil, hco']
      · rw [if_neg hany] at hp
        rcases List.mem_append.mp hp with hpg | hpe
        · rw [hvals p hpg]
          have hne : (entityType e == p.1) = false := by
            rw [beq_eq_false_iff_ne]
            intro hn
            exact hany (List.any_eq_true.mpr ⟨p, hpg, beq_iff_eq.mpr hn.symm⟩)
          simp [List.filter_cons, List.filter_nil, hne]
        · rcases List.mem_singleton.mp hpe with rfl
          have hnotpre : entityType e ∉ pre.map entityType :=
            fun hm => hany (hmem_any.mpr hm)
          have hnil : pre.filter (fun e' => entityType e' == entityType e) = [] := by
            rw [List.filter_eq_nil_iff]
            intro a ha hco
            exact hnotpre (List.mem_map.mpr ⟨a, ha, beq_iff_eq.mp hco⟩)
          simp [List.filter_cons, List.filter_nil, hnil]
    have hres := ih (pre ++ [e]) (insertEntity groups e) hkeys' hvals'
    rw [show (pre ++ [e]) ++ es = pre ++ e :: es by simp] at hres
    rw [List.foldl_cons]
    exact hres

/-- C5: grouping is a partition into per-type groups — the group keys are
the entity types in first-occurrence order, and each group holds exactly
the entities of its type in their original relative order. (Stability —
grouping the same list twice gives the same result — is immediate because
`groupEntities` is a pure function of the list.) -/
theorem groupEntities_spec (es : List Entity) :
    (groupEntities es).map Prod.fst = firstSeen (es.map entityType) ∧
    ∀ p ∈ groupEntities es, p.2 = es.filter (fun e => entityType e == p.1) :=
  groupEntities_loop es [] [] rfl (fun p hp => absurd hp (List.not_mem_nil p))

/-- Witness for `groupEntities_spec`: a concrete three-entity list with a
repeated type, with the membership hypothesis discharged at the group of
type `"amount"` (which collects the first and third entity, in order). -/
theorem groupEntities_spec_witness :
    ((⟨"amount", [⟨some "amount", "$100", mkRat 9 10⟩,
        ⟨some "amount", "$5", mkRat 1 10⟩]⟩ : String × List Entity)).2 =
      [(⟨some "amount", "$100", mkRat 9 10⟩ : Entity), ⟨some "currency", "USD", 1⟩,
        ⟨some "amount", "$5", mkRat 1 10⟩].filter
        (fun e => entityType e ==
          ((⟨"amount", [⟨some "amount", "$100", mkRat 9 10⟩,
            ⟨some "amount", "$5", mkRat 1 10⟩]⟩ : String × List Entity)).1) :=
  (groupEntities_spec _).2 _ (by decide)

/-- C8: the severity tier displayed for a confidence value is `high` iff
the confidence exceeds 0.8, `medium` iff it exceeds 0.5 but not 0.8, and
`low` iff it does not exceed 0.5; in particular confidence 0.9 is
displayed as `high`. -/
theorem severityOf_spec :
    (∀ c : ℚ, (severityOf c = .high ↔ c > 0.8) ∧
      (severityOf c = .medium ↔ c > 0.5 ∧ ¬c > 0.8) ∧
      (severityOf c = .low ↔ ¬c > 0.5)) ∧
    severityOf 0.9 = .high := by
  constructor
  · intro c
    by_cases h8 : c > 0.8
    · have h5 : c > 0.5 := lt_trans (by norm_num) h8
      simp [severityOf, confidenceColor, h8, h5]
    · by_cases h5 : c > 0.5
      · simp [severityOf, confidenceColor, h8, h5]
      · simp [severityOf, confidenceColor, h8, h5]
  · have h8 : (0.9 : ℚ) > 0.8 := by norm_num
    have h5 : (0.9 : ℚ) > 0.5 := lt_trans (by norm_num) h8
    simp [severityOf, confidenceColor, h8, h5]

/-! ## Extraction normalizer: table materialization

`display_results` (`results_display.py`, lines 61–89) renders each table
with `if headers and rows:` then `pd.DataFrame(rows, columns=headers)`;
on an exception it shows the raw table JSON, and in the `else` branch
("Empty table or invalid format") it also shows the raw table JSON.

`pd.DataFrame` on a list of row lists infers the column count as the
maximum row length, pads shorter rows with missing values (NaN), and
raises `ValueError` when the inferred column count differs from
`len(columns)` ("N columns passed, passed data had K columns"). The model
below embeds exactly that: a cell is `Option String`, `none` being a
NaN-padded cell. -/

/-- The column count `pd.DataFrame` infers from a list of row lists: the
maximum row length. -/
def rowsWidth (rows : List (List String)) : Nat :=
  rows.foldr (fun r acc => max r.length acc) 0

/-- One row padded to `n` cells with missing values, as `pd.DataFrame`
pads ragged rows with NaN. -/
def padRow (n : Nat) (r : List String) : List (Option String) :=
  r.map some ++ List.replicate (n - r.length) none

/-- What `display_results` shows for one table: either a materialized
data frame, or the raw table JSON (`st.json(table)`). `viaError = true`
is the exception branch ("Error displaying table"), `false` the
`else` branch ("Empty table or invalid format"). -/
inductive TableDisplay where
  | tabular (headers : List String) (rows : List (List (Option String)))
  | rawJson (t : Table) (viaError : Bool)
deriving DecidableEq, Repr

/-- The per-table branch of `display_results`: `if headers and rows:` then
`pd.DataFrame(rows, columns=headers)` (succeeding iff the inferred width
equals the header count), else / on exception the raw table JSON. -/
def displayTable (t : Table) : TableDisplay :=
  if t.headers ≠ [] ∧ t.rows ≠ [] then
    if rowsWidth t.rows = t.headers.length then
      .tabular t.headers (t.rows.map (padRow t.headers.length))
    else .rawJson t true
  else .rawJson t false

/-- C4 (amended): a table is materialized as a row-oriented tabular
structure iff its headers and rows are non-empty and the maximum row
length equals the header count — rows shorter than the header count are
padded with missing cells, not treated as malformed; in every other case
the raw table structure is passed through unchanged (not dropped). -/
theorem displayTable_spec (t : Table) :
    (t.headers ≠ [] ∧ t.rows ≠ [] ∧ rowsWidth t.rows = t.headers.length →
      displayTable t = .tabular t.headers (t.rows.map (padRow t.headers.length))) ∧
    (t.headers ≠ [] → t.rows ≠ [] → rowsWidth t.rows ≠ t.headers.length →
      displayTable t = .rawJson t true) ∧
    (¬(t.headers ≠ [] ∧ t.rows ≠ []) → displayTable t = .rawJson t false) := by
  refine ⟨?_, ?_, ?_⟩
  · rintro ⟨hh, hr, hw⟩
    rw [displayTable, if_pos ⟨hh, hr⟩, if_pos hw]
  · intro hh hr hw
    rw [displayTable, if_pos ⟨hh, hr⟩, if_neg hw]
  · intro hhr
    rw [displayTable, if_neg hhr]

/-- Witness for `displayTable_spec`: all three branches at concrete
tables — a well-formed 1×2 table materializes; a table whose single row
is longer than its headers falls back to the raw JSON via the exception
branch; a table with no rows takes the `else` raw-JSON branch. -/
theorem displayTable_spec_witness :
    displayTable ⟨some "T", ["A", "B"], [["1", "2"]]⟩ =
      .tabular ["A", "B"] [[some "1", some "2"]] ∧
    displayTable ⟨none, ["A"], [["1", "2"]]⟩ =
      .rawJson ⟨none, ["A"], [["1", "2"]]⟩ true ∧
    displayTable ⟨none, ["A"], []⟩ = .rawJson ⟨none, ["A"], []⟩ false :=
  ⟨by
    have h := (displayTable_spec ⟨some "T", ["A", "B"], [["1", "2"]]⟩).1
      ⟨by decide, by decide, by decide⟩
    exact h.trans (by decide),
   (displayTable_spec ⟨none, ["A"], [["1", "2"]]⟩).2.1
     (by decide) (by decide) (by decide),
   (displayTable_spec ⟨none, ["A"], []⟩).2.2 (by decide)⟩

/-- C4 counterexample: the spec's own example — headers `["A","B"]`,
rows `[["1","2"],["3"]]`. The claim says it is flagged malformed and the
raw structure passed through; the code materializes it instead, because
`pd.DataFrame` infers two columns (the maximum row length) and pads the
short row `["3"]` with a missing cell. -/
theorem displayTable_counterexample :
    displayTable ⟨none, ["A", "B"], [["1", "2"], ["3"]]⟩ =
      .tabular ["A", "B"] [[some "1", some "2"], [some "3", none]] ∧
    displayTable ⟨none, ["A", "B"], [["1", "2"], ["3"]]⟩ ≠
      .rawJson ⟨none, ["A", "B"], [["1", "2"], ["3"]]⟩ true ∧
    displayTable ⟨none, ["A", "B"], [["1", "2"], ["3"]]⟩ ≠
      .rawJson ⟨none, ["A", "B"], [["1", "2"], ["3"]]⟩ false := by
  refine ⟨by decide, by decide, by decide⟩

/-! ## Transport client -/

/-- The outcome of the `requests.post` call inside
`ApiClient.upload_file` (`api_client.py`): either a parsed JSON body, or a
`requests.exceptions.RequestException` (connection error, timeout,
non-2xx status via `raise_for_status`, malformed body) whose `str(e)` is
`cause`. -/
inductive UploadOutcome where
  | ok (body : Response)
  | requestException (cause : String)
deriving DecidableEq, Repr

/-- `ApiClient.upload_file` after the `try/except`: the parsed body on
success, and on any `RequestException` the error object
`{"error": True, "message": f"Upload failed: {str(e)}", "fileId": None}`.
The function is total: no exception escapes the boundary. -/
def uploadFile : UploadOutcome → Response
  | .ok body => body
  | .requestException cause =>
      ⟨true, some ("Upload failed: " ++ cause), none, none, none, [], [], []⟩

/-- C6: for every transport-level failure, `upload_file` returns (never
raises) an object with `error == true`, a message containing the
underlying cause, and `fileId == null`; in particular a connection error
gives a message containing `"Connection failed"`. -/
theorem uploadFile_error_spec :
    (∀ cause : String,
      (uploadFile (.requestException cause)).error = true ∧
      strContains ((uploadFile (.requestException cause)).message.getD "") cause = true ∧
      (uploadFile (.requestException cause)).fileId = none) ∧
    strContains ((uploadFile (.requestException "Connection failed")).message.getD "")
      "Connection failed" = true := by
  constructor
  · intro cause
    refine ⟨rfl, ?_, rfl⟩
    show subSeqOf cause.data ("Upload failed: " ++ cause).data = true
    rw [show ("Upload failed: " ++ cause).data = "Upload failed: ".data ++ cause.data
      from String.data_append ..]
    exact subSeqOf_append_self _ _
  · show subSeqOf "Connection failed".data
      ("Upload failed: " ++ "Connection failed").data = true
    decide

/-- The methods the `ApiClient` class defines (`api_client.py`): its
attribute surface, against which Python resolves `api_client.<name>`. -/
def apiClientMethods : List String :=
  ["__init__", "upload_file", "get_file_result", "download_file"]

/-- C7: `ApiClient` defines no `list_files` method, although `main`
(`app.py`, line 73) calls `api_client.list_files() or []`. Attribute
lookup of `"list_files"` on the class fails, so the call raises
`AttributeError` instead of returning a (possibly empty) file listing:
the listing operation the spec describes is absent from the code. -/
theorem apiClient_list_files_missing :
    ("list_files" ∈ apiClientMethods) = False ∧ "upload_file" ∈ apiClientMethods := by
  refine ⟨by decide, by decide⟩

/-! ## CSV projection and round trip

`display_results` projects a materialized table to CSV with
`df.to_csv(csv_buffer, index=False)`: header row first, then the rows,
each line terminated by a newline, fields quoted per standard CSV
escaping (`QUOTE_MINIMAL`: a field is wrapped in double quotes iff it
contains a comma, a double quote, a newline or a carriage return, and
embedded double quotes are doubled). The encoder below embeds that
byte-level format on `List Char`; `scanCsv` is the standard CSV reader
for the same escaping, against which the round trip is stated. -/

/-- `QUOTE_MINIMAL`: does this field need quoting? -/
def needsQuote (f : List Char) : Bool :=
  f.any (fun c => c == ',' || c == '"' || c == '\n' || c == '\r')

/-- Double every double quote in a field (standard CSV escaping). -/
def escQuotes : List Char → List Char
  | [] => []
  | c :: cs => if c = '"' then '"' :: '"' :: escQuotes cs else c :: escQuotes cs

/-- One encoded CSV field. -/
def encodeField (f : List Char) : List Char :=
  if needsQuote f then '"' :: (escQuotes f ++ ['"']) else f

/-- One encoded CSV record: fields joined with commas. -/
def encodeRecord : List (List Char) → List Char
  | [] => []
  | [f] => encodeField f
  | f :: fs => encodeField f ++ ',' :: encodeRecord fs

/-- A full CSV byte sequence: one line per record, each ending in a
newline (as `to_csv` terminates every line, the last included). -/
def encodeCsv (rs : List (List (List Char))) : List Char :=
  (rs.map (fun r => encodeRecord r ++ ['\n'])).flatten

/-- The CSV projection of a table as `display_results` produces it:
header row first, then the data rows. -/
def tableCsv (t : Table) : List Char :=
  encodeCsv ((t.headers :: t.rows).map (fun row => row.map String.data))

/-- A standard CSV reader as a single-pass state machine: `inQ` is the
inside-a-quoted-field flag, `f` the field accumulated so far, `r` the
record accumulated so far. A doubled quote inside a quoted field is an
escaped quote; a comma outside quotes ends the field; a newline outside
quotes ends the record. -/
def scanCsv : List Char → Bool → List Char → List (List Char) → List (List (List Char))
  | [], inQ, f, r => if inQ || !f.isEmpty || !r.isEmpty then [r ++ [f]] else []
  | c :: cs, inQ, f, r =>
      if inQ then
        if c = '"' then
          if cs.head? = some '"' then scanCsv cs.tail true (f ++ ['"']) r
          else scanCsv cs false f r
        else scanCsv cs true (f ++ [c]) r
      else
        if c = '"' then scanCsv cs true f r
        else if c = ',' then scanCsv cs false [] (r ++ [f])
        else if c = '\n' then (r ++ [f]) :: scanCsv cs false [] []
        else scanCsv cs false (f ++ [c]) r
termination_by s _ _ _ => s.length
decreasing_by all_goals (simp only [List.length_cons, List.length_tail]; omega)

/-- Parse a CSV byte sequence into its records. -/
def parseCsv (s : List Char) : List (List (List Char)) := scanCsv s false [] []

/-! Stepping equations for `scanCsv`. -/

theorem scanCsv_quote_true_pair (cs2 f : List Char) (r : List (List Char)) :
    scanCsv ('"' :: '"' :: cs2) true f r = scanCsv cs2 true (f ++ ['"']) r := by
  simp [scanCsv]

theorem scanCsv_quote_true_close (cs f : List Char) (r : List (List Char))
    (h : cs.head? ≠ some '"') :
    scanCsv ('"' :: cs) true f r = scanCsv cs false f r := by
  simp [scanCsv, h]

theorem scanCsv_char_true (c : Char) (cs f : List Char) (r : List (List Char))
    (h : c ≠ '"') :
    scanCsv (c :: cs) true f r = scanCsv cs true (f ++ [c]) r := by
  simp [scanCsv, h]

theorem scanCsv_quote_false (cs f : List Char) (r : List (List Char)) :
    scanCsv ('"' :: cs) false f r = scanCsv cs true f r := by
  simp [scanCsv]

theorem scanCsv_comma_false (cs f : List Char) (r : List (List Char)) :
    scanCsv (',' :: cs) false f r = scanCsv cs false [] (r ++ [f]) := by
  simp [scanCsv]

theorem scanCsv_newline_false (cs f : List Char) (r : List (List Char)) :
    scanCsv ('\n' :: cs) false f r = (r ++ [f]) :: scanCsv cs false [] [] := by
  simp [scanCsv]

theorem scanCsv_char_false (c : Char) (cs f : List Char) (r : List (List Char))
    (h1 : c ≠ '"') (h2 : c ≠ ',') (h3 : c ≠ '\n') :
    scanCsv (c :: cs) false f r = scanCsv cs false (f ++ [c]) r := by
  simp [scanCsv, h1, h2, h3]

/-- Scanning an unquoted field accumulates its characters. -/
theorem scanCsv_bare (f : List Char)
    (hf : ∀ c ∈ f, c ≠ '"' ∧ c ≠ ',' ∧ c ≠ '\n') :
    ∀ (rest acc : List Char) (r : List (List Char)),
    scanCsv (f ++ rest) false acc r = scanCsv rest false (acc ++ f) r := by
  induction f with
  | nil => intro rest acc r; simp
  | cons c f ih =>
    intro rest acc r
    obtain ⟨h1, h2, h3⟩ := hf c (List.mem_cons_self c f)
    rw [List.cons_append, scanCsv_char_false c _ _ _ h1 h2 h3,
      ih (fun x hx => hf x (List.mem_cons_of_mem c hx)) rest (acc ++ [c]) r,
      List.append_assoc]
    rfl

/-- Scanning the escaped content of a quoted field up to the closing
quote accumulates the original characters and leaves the quoted state. -/
theorem scanCsv_quoted (f : List Char) : ∀ (rest acc : List Char) (r : List (List Char)),
    rest.head? ≠ some '"' →
    scanCsv (escQuotes f ++ ('"' :: rest)) true acc r = scanCsv rest false (acc ++ f) r := by
  induction f with
  | nil =>
    intro rest acc r h
    rw [show escQuotes [] = [] from rfl, List.nil_append,
      scanCsv_quote_true_close _ _ _ h, List.append_nil]
  | cons c f ih =>
    intro rest acc r h
    by_cases hc : c = '"'
    · rcases hc with rfl
      rw [show escQuotes ('"' :: f) = '"' :: '"' :: escQuotes f from by
          rw [escQuotes, if_pos rfl],
        List.cons_append, List.cons_append, scanCsv_quote_true_pair,
        ih rest (acc ++ ['"']) r h, List.append_assoc]
      rfl
    · rw [show escQuotes (c :: f) = c :: escQuotes f from by
          rw [escQuotes, if_neg hc],
        List.cons_append, scanCsv_char_true c _ _ _ hc,
        ih rest (acc ++ [c]) r h, List.append_assoc]
      rfl

/-- Scanning one encoded field (quoted or bare) yields exactly that
field, provided what follows does not start with a quote (in encoded
input it is a comma, a newline, or the end). -/
theorem scanCsv_encodeField (f rest : List Char) (r : List (List Char))
    (h : rest.head? ≠ some '"') :
    scanCsv (encodeField f ++ rest) false [] r = scanCsv rest false f r := by
  unfold encodeField
  by_cases hq : needsQuote f = true
  · rw [if_pos hq, List.cons_append, scanCsv_quote_false, List.append_assoc]
    exact (scanCsv_quoted f rest [] r h).trans (by rw [List.nil_append])
  · rw [if_neg hq]
    have hf : ∀ c ∈ f, c ≠ '"' ∧ c ≠ ',' ∧ c ≠ '\n' := by
      intro c hc
      have hnp : ¬((c == ',' || c == '"' || c == '\n' || c == '\r') = true) :=
        fun hp => hq (List.any_eq_true.mpr ⟨c, hc, hp⟩)
      simp only [Bool.or_eq_true, beq_iff_eq, not_or] at hnp
      exact ⟨hnp.1.1.2, hnp.1.1.1, hnp.1.2⟩
    exact (scanCsv_bare f hf rest [] r).trans (by rw [List.nil_append])

/-- Scanning one encoded record followed by its newline closes exactly
that record. -/
theorem scanCsv_encodeRecord : ∀ (fs : List (List Char)) (f : List Char)
    (rest : List Char) (racc : List (List Char)),
    scanCsv (encodeRecord (f :: fs) ++ ('\n' :: rest)) false [] racc =
      (racc ++ (f :: fs)) :: scanCsv rest false [] [] := by
  intro fs
  induction fs with
  | nil =>
    intro f rest racc
    rw [show encodeRecord [f] = encodeField f from rfl,
      scanCsv_encodeField f _ racc (by simp), scanCsv_newline_false]
  | cons f2 fs2 ih =>
    intro f rest racc
    rw [show encodeRecord (f :: f2 :: fs2) =
        encodeField f ++ ',' :: encodeRecord (f2 :: fs2) from rfl,
      List.append_assoc, List.cons_append,
      scanCsv_encodeField f _ racc (by simp),
      scanCsv_comma_false, ih f2 rest (racc ++ [f]), List.append_assoc]
    rfl

/-- Scanning a whole encoded CSV recovers all records, provided each
record has at least one field. -/
theorem scanCsv_encodeCsv : ∀ rs : List (List (List Char)),
    (∀ rec ∈ rs, rec ≠ []) →
    scanCsv (encodeCsv rs) false [] [] = rs := by
  intro rs
  induction rs with
  | nil => intro _; simp [encodeCsv, scanCsv]
  | cons rec rs ih =>
    intro hne
    obtain ⟨f, fs, rfl⟩ : ∃ f fs, rec = f :: fs := by
      cases rec with
      | nil => exact absurd rfl (hne [] (List.mem_cons_self [] rs))
      | cons f fs => exact ⟨f, fs, rfl⟩
    rw [show encodeCsv ((f :: fs) :: rs) =
        encodeRecord (f :: fs) ++ ('\n' :: encodeCsv rs) from by
        simp [encodeCsv, List.append_assoc],
      scanCsv_encodeRecord fs f _ [],
      ih (fun r hr => hne r (List.mem_cons_of_mem _ hr))]
    rfl

/-- C9: for every well-formed table (non-empty headers, every row as
long as the headers), projecting to CSV and re-parsing yields the
original header row and the original row values — including values
containing commas or quotes, which the quoting round-trips. -/
theorem tableCsv_roundtrip (t : Table) (hh : t.headers ≠ [])
    (hw : ∀ row ∈ t.rows, row.length = t.headers.length) :
    parseCsv (tableCsv t) =
      (t.headers.map String.data) :: t.rows.map (fun row => row.map String.data) := by
  unfold parseCsv tableCsv
  rw [show (t.headers :: t.rows).map (fun row => row.map String.data) =
    (t.headers.map String.data) :: t.rows.map (fun row => row.map String.data) from rfl]
  apply scanCsv_encodeCsv
  intro rec hrec
  rcases List.mem_cons.mp hrec with rfl | hmem
  · simpa using hh
  · rcases List.mem_map.mp hmem with ⟨row, hrow, rfl⟩
    have hlen := hw row hrow
    have hpos : t.headers.length ≠ 0 := fun h0 => hh (List.length_eq_zero.mp h0)
    intro hnil
    apply hpos
    rw [← hlen]
    simpa using congrArg List.length hnil

/-- Witness for `tableCsv_roundtrip`: a concrete table whose values
contain a comma and a double quote. -/
theorem tableCsv_roundtrip_witness :
    (["A", "B"] ≠ ([] : List String)) ∧
    parseCsv (tableCsv ⟨some "Items", ["A", "B"], [["a,b", "c\"d"]]⟩) =
      (["A", "B"].map String.data) ::
        [["a,b", "c\"d"]].map (fun row => row.map String.data) :=
  ⟨by decide,
    tableCsv_roundtrip ⟨some "Items", ["A", "B"], [["a,b", "c\"d"]]⟩
      (by decide) (by decide)⟩

end DocProcessor
